import Mathlib

/-!
Verification of the LoLa browser-agent core: the bounded conversation
memory (`MemoryStore` in src/memory/store.ts), the tool dispatcher
(`createToolsNode`), the routing decision (`shouldContinue`) and the
ReAct graph wiring (`createGraph`).  The TypeScript is embedded shallowly:
messages become an inductive type, `Array.prototype.slice` with a possibly
negative start index is modelled exactly (including `slice(-0) = slice(0)`),
tool invocations are opaque functions returning `Except`.
-/

namespace LoLa

/-- An action request attached to an assistant message
(`tool_calls` entries: `{name, args, id}`).  The argument payload type is
abstract, as the dispatcher never inspects it. -/
structure ToolCall (α : Type) where
  name : String
  args : α
  id : String
deriving DecidableEq, Repr

/-- A conversation message (`BaseMessage`): system, human, assistant
(`ai`, carrying `tool_calls`), or tool-result message
(`{role:"tool", name, content, tool_call_id}`). -/
inductive Msg (α : Type) where
  | system (content : String)
  | human (content : String)
  | ai (content : String) (toolCalls : List (ToolCall α))
  | toolMsg (name : String) (content : String) (toolCallId : String)
deriving DecidableEq, Repr

variable {α : Type}

/-- `m._getType()`. -/
def Msg.getType : Msg α → String
  | .system _ => "system"
  | .human _ => "human"
  | .ai _ _ => "ai"
  | .toolMsg _ _ _ => "tool"

/-- `m.content`. -/
def Msg.content : Msg α → String
  | .system c => c
  | .human c => c
  | .ai c _ => c
  | .toolMsg _ c _ => c

/-- `m.tool_calls ?? []`: the requested actions of an assistant message,
`[]` for every other role (the property is absent there). -/
def Msg.toolCalls : Msg α → List (ToolCall α)
  | .ai _ tc => tc
  | _ => []

/-- `m.tool_call_id` of a tool-result message (`""` for other roles, where
the property is absent). -/
def Msg.toolCallId : Msg α → String
  | .toolMsg _ _ i => i
  | _ => ""

/-- JavaScript `arr.slice(start)` for an integer `start`: a negative start
counts from the end, clamped at `0`; a nonnegative start is clamped at the
length.  Note `-0 = 0`, so `arr.slice(-0)` is the whole array. -/
def jsSlice (l : List β) (start : Int) : List β :=
  if 0 ≤ start then l.drop start.toNat
  else l.drop ((l.length : Int) + start).toNat

/-- The state of `MemoryStore` (src/memory/store.ts): the message array and
the configured `maxMessages` (constructor default 50). -/
structure MemoryStore (α : Type) where
  messages : List (Msg α)
  maxMessages : Int
deriving DecidableEq, Repr

namespace MemoryStore

/-- `MemoryStore.addMessages`: push the batch, then, when
`messages.length > maxMessages`, rebuild the array as all system messages
followed by `otherMessages.slice(-maxMessages)`. -/
def addMessages (s : MemoryStore α) (batch : List (Msg α)) : MemoryStore α :=
  let msgs := s.messages ++ batch
  if s.maxMessages < (msgs.length : Int) then
    let systemMessages := msgs.filter (fun m => m.getType == "system")
    let otherMessages := msgs.filter (fun m => m.getType != "system")
    let recentMessages := jsSlice otherMessages (-s.maxMessages)
    { s with messages := systemMessages ++ recentMessages }
  else
    { s with messages := msgs }

/-- `MemoryStore.getMessages`: returns `[...this.messages]`, a fresh copy of
the stored sequence (copying is identity in this pure model). -/
def getMessages (s : MemoryStore α) : List (Msg α) :=
  s.messages

/-- `MemoryStore.getRecentMessages(count)`: `this.messages.slice(-count)`. -/
def getRecentMessages (s : MemoryStore α) (count : Int) : List (Msg α) :=
  jsSlice s.messages (-count)

/-- `MemoryStore.clear`. -/
def clear (s : MemoryStore α) : MemoryStore α :=
  { s with messages := [] }

/-- `MemoryStore.getMessageCount`. -/
def getMessageCount (s : MemoryStore α) : Nat :=
  s.messages.length

end MemoryStore

/-- Number of retained non-instruction (non-system) turns. -/
def nonInstructionCount (s : MemoryStore α) : Nat :=
  (s.messages.filter (fun m => m.getType != "system")).length

/-- The spec's shorthand for the retained non-instruction count:
`size() - (1 if instruction present else 0)`. -/
def claimNonInstr (s : MemoryStore α) : Int :=
  (s.getMessageCount : Int) -
    (if s.messages.any (fun m => m.getType == "system") then 1 else 0)

/-- The layout the spec ascribes to `snapshot()`: all instruction turns
first in original relative order, then the non-instruction turns in
original relative order. -/
def specInstructionFirst (l : List (Msg α)) : List (Msg α) :=
  l.filter (fun m => m.getType == "system") ++
    l.filter (fun m => m.getType != "system")

/-- A catalog entry (`StructuredToolInterface`): a name and an invocation
that either returns text or raises a failure with a message. -/
structure Tool (α : Type) where
  name : String
  invoke : α → Except String String

/-- The body of the dispatch loop of `createToolsNode` for one call:
resolve the name with `tools.find`, short-circuit to the unknown-tool error
message, otherwise invoke and convert a success or a caught failure into a
tool-result message tagged with the call's `id` and `name`. -/
def execCall (tools : List (Tool α)) (call : ToolCall α) : Msg α :=
  match tools.find? (fun x => x.name == call.name) with
  | none =>
      .toolMsg call.name ("ERROR: unknown tool \"" ++ call.name ++ "\"") call.id
  | some t =>
      match t.invoke call.args with
      | .ok out => .toolMsg call.name out call.id
      | .error e =>
          .toolMsg call.name
            ("ERROR running tool \"" ++ call.name ++ "\": " ++ e) call.id

/-- The `for (const call of toolCalls)` loop of `createToolsNode`: one
result pushed per call, in call order. -/
def dispatch (tools : List (Tool α)) (calls : List (ToolCall α)) : List (Msg α) :=
  calls.map (execCall tools)

/-- `createToolsNode`'s node function: read the last message's
`tool_calls ?? []` and dispatch them (empty list when the model requested
no tools, matching the early `return { messages: [] }`). -/
def toolsNode (tools : List (Tool α)) (messages : List (Msg α)) : List (Msg α) :=
  dispatch tools ((messages.getLast?).elim [] Msg.toolCalls)

/-- `shouldContinue`: route to `"tools"` when the last assistant message
has tool calls, else to `END` (`"__end__"`). -/
def shouldContinue (messages : List (Msg α)) : String :=
  if ((messages.getLast?).elim [] Msg.toolCalls).length ≠ 0 then "tools"
  else "__end__"

/-- `createAgentNode`'s node function: consult the reasoning oracle (the
bound LLM) with the system message prepended to the state and return the
response as the node's message delta. -/
def agentNode (oracle : List (Msg α) → Msg α) (sys : Msg α)
    (messages : List (Msg α)) : List (Msg α) :=
  [oracle (sys :: messages)]

/-- Modelled from the spec: the LangGraph engine that runs the graph
compiled by `createGraph`, and the session entry point that extracts the
final answer, are not under src/.  This executes the wiring declared in
`createGraph` — START → agent, agent →(shouldContinue) tools or END,
tools → agent — with the `MessagesAnnotation` reducer appending each
node's returned messages; `fuel` bounds the otherwise unbounded loop
(`none` = fuel exhausted).  The result is the final message state paired
with the trace of node names executed. -/
def runGraph (oracle : List (Msg α) → Msg α) (tools : List (Tool α))
    (sys : Msg α) : Nat → List (Msg α) → Option (List (Msg α) × List String)
  | 0, _ => none
  | fuel + 1, msgs =>
    let msgs1 := msgs ++ agentNode oracle sys msgs
    if shouldContinue msgs1 = "tools" then
      let msgs2 := msgs1 ++ toolsNode tools msgs1
      match runGraph oracle tools sys fuel msgs2 with
      | none => none
      | some (final, tr) => some (final, "agent" :: "tools" :: tr)
    else
      some (msgs1, ["agent"])

/-- Modelled from the spec: the final answer returned to the caller is the
content of the last message of the final state. -/
def finalAnswer (msgs : List (Msg α)) : String :=
  ((msgs.getLast?).map Msg.content).getD ""

/-- Does `pat` occur at the head of `l`? -/
def startsWithL : List Char → List Char → Bool
  | [], _ => true
  | _ :: _, [] => false
  | p :: ps, c :: cs => p == c && startsWithL ps cs

/-- Does `pat` occur anywhere in `l`? -/
def containsSub (pat : List Char) : List Char → Bool
  | [] => startsWithL pat []
  | c :: cs => startsWithL pat (c :: cs) || containsSub pat cs

/-- Substring test on strings. -/
def strContains (s pat : String) : Bool :=
  containsSub pat.data s.data

/-- An operation the Loop Controller may issue against the store
(the read-only accessors do not mutate and are omitted). -/
inductive HistOp (α : Type) where
  | append (batch : List (Msg α))
  | clearOp
deriving DecidableEq

/-- Apply one store operation. -/
def applyOp (s : MemoryStore α) : HistOp α → MemoryStore α
  | .append b => s.addMessages b
  | .clearOp => s.clear

/-- Run a sequence of store operations. -/
def runOps (s : MemoryStore α) (ops : List (HistOp α)) : MemoryStore α :=
  ops.foldl applyOp s

section Lemmas

theorem startsWithL_append (pat l l' : List Char)
    (h : startsWithL pat l = true) : startsWithL pat (l ++ l') = true := by
  induction pat generalizing l with
  | nil => simp [startsWithL]
  | cons p ps ih =>
    cases l with
    | nil => simp [startsWithL] at h
    | cons c cs =>
      simp only [startsWithL, Bool.and_eq_true] at h ⊢
      exact ⟨h.1, ih cs h.2⟩

theorem containsSub_append (pat l l' : List Char)
    (h : containsSub pat l = true) : containsSub pat (l ++ l') = true := by
  induction l with
  | nil =>
    cases pat with
    | nil =>
      cases l' with
      | nil => simpa using h
      | cons c cs => simp [containsSub, startsWithL]
    | cons p ps => simp [containsSub, startsWithL] at h
  | cons c cs ih =>
    simp only [containsSub, Bool.or_eq_true, List.cons_append] at h ⊢
    rcases h with h | h
    · exact Or.inl (startsWithL_append _ _ _ h)
    · exact Or.inr (ih h)

/-- Every branch of the dispatch loop tags its result with the call's id. -/
theorem execCall_toolCallId (tools : List (Tool α)) (call : ToolCall α) :
    (execCall tools call).toolCallId = call.id := by
  cases h : tools.find? (fun x => x.name == call.name) with
  | none => simp [execCall, h, Msg.toolCallId]
  | some t =>
    cases h2 : t.invoke call.args <;> simp [execCall, h, h2, Msg.toolCallId]

/-- Every branch of the dispatch loop yields a tool message carrying the
originating call's name and id. -/
theorem execCall_shape (tools : List (Tool α)) (call : ToolCall α) :
    ∃ out, execCall tools call = Msg.toolMsg call.name out call.id := by
  cases h : tools.find? (fun x => x.name == call.name) with
  | none =>
    exact ⟨"ERROR: unknown tool \"" ++ call.name ++ "\"", by simp [execCall, h]⟩
  | some t =>
    cases h2 : t.invoke call.args with
    | ok out => exact ⟨out, by simp [execCall, h, h2]⟩
    | error e =>
      exact ⟨"ERROR running tool \"" ++ call.name ++ "\": " ++ e,
        by simp [execCall, h, h2]⟩

theorem toolsNode_concat_ai (tools : List (Tool α)) (msgs : List (Msg α))
    (c : String) (calls : List (ToolCall α)) :
    toolsNode tools (msgs ++ [Msg.ai c calls]) = dispatch tools calls := by
  unfold toolsNode
  rw [List.getLast?_concat]
  rfl

theorem filter_other_of_filter_sys (l : List (Msg α)) :
    ((l.filter (fun m => m.getType == "system")).filter
        (fun m => m.getType != "system")) = [] := by
  rw [List.filter_eq_nil_iff]
  intro a ha
  have h := (List.mem_filter.1 ha).2
  simp [eq_of_beq h]

theorem jsSlice_subset (l : List β) (k : Int) : jsSlice l k ⊆ l := by
  unfold jsSlice
  split <;> exact List.drop_subset _ _

theorem filter_other_of_jsSlice_other (l : List (Msg α)) (k : Int) :
    ((jsSlice (l.filter (fun m => m.getType != "system")) k).filter
        (fun m => m.getType != "system")) =
      jsSlice (l.filter (fun m => m.getType != "system")) k :=
  List.filter_eq_self.2 fun _ ha =>
    (List.mem_filter.1 (jsSlice_subset _ _ ha)).2

theorem filter_sys_of_jsSlice_other (l : List (Msg α)) (k : Int) :
    ((jsSlice (l.filter (fun m => m.getType != "system")) k).filter
        (fun m => m.getType == "system")) = [] := by
  rw [List.filter_eq_nil_iff]
  intro a ha
  have h := (List.mem_filter.1 (jsSlice_subset _ _ ha)).2
  simp only [bne, Bool.not_eq_true'] at h
  simp [h]

/-- A list made of instruction turns followed by instruction-free turns is
a fixpoint of the spec's instruction-first reordering. -/
theorem specInstructionFirst_of_split (u v : List (Msg α))
    (hu : ∀ m ∈ u, (m.getType == "system") = true)
    (hv : ∀ m ∈ v, (m.getType == "system") = false) :
    specInstructionFirst (u ++ v) = u ++ v := by
  have h1 : List.filter (fun m => m.getType == "system") v = [] :=
    List.filter_eq_nil_iff.2 (fun m hm => by simp [hv m hm])
  have h2 : List.filter (fun m => m.getType != "system") u = [] :=
    List.filter_eq_nil_iff.2 (fun m hm => by simp [bne, hu m hm])
  have h3 : List.filter (fun m => m.getType != "system") v = v :=
    List.filter_eq_self.2 (fun m hm => by simp [bne, hv m hm])
  have h4 : List.filter (fun m => m.getType == "system") u = u :=
    List.filter_eq_self.2 hu
  unfold specInstructionFirst
  rw [List.filter_append, List.filter_append, h1, h2, h3, h4,
    List.append_nil, List.nil_append]

theorem maxMessages_addMessages (s : MemoryStore α) (b : List (Msg α)) :
    (s.addMessages b).maxMessages = s.maxMessages := by
  simp only [MemoryStore.addMessages]
  split <;> rfl

theorem maxMessages_foldl (batches : List (List (Msg α))) (s : MemoryStore α) :
    (batches.foldl MemoryStore.addMessages s).maxMessages = s.maxMessages := by
  induction batches generalizing s with
  | nil => rfl
  | cons b bs ih => rw [List.foldl_cons, ih, maxMessages_addMessages]

/-- One eviction-aware append keeps the retained non-instruction count
under the cap, for any positive cap and any prior state. -/
theorem nonInstructionCount_addMessages_le (s : MemoryStore α)
    (batch : List (Msg α)) (hM : 1 ≤ s.maxMessages) :
    (nonInstructionCount (s.addMessages batch) : Int) ≤ s.maxMessages := by
  unfold nonInstructionCount
  by_cases h : s.maxMessages < ((s.messages ++ batch).length : Int)
  · simp only [MemoryStore.addMessages, if_pos h]
    rw [List.filter_append, filter_other_of_filter_sys,
      filter_other_of_jsSlice_other, List.nil_append]
    unfold jsSlice
    rw [if_neg (by omega : ¬ (0 : Int) ≤ -s.maxMessages), List.length_drop]
    omega
  · simp only [MemoryStore.addMessages, if_neg h]
    have h1 := List.length_filter_le
      (fun (m : Msg α) => m.getType != "system") (s.messages ++ batch)
    omega

/-- A system message already stored or being appended survives the
append, eviction pass or not. -/
theorem mem_addMessages_of_sys (m : Msg α) (hm : m.getType = "system")
    (s : MemoryStore α) (b : List (Msg α)) (hmem : m ∈ s.messages ++ b) :
    m ∈ (s.addMessages b).messages := by
  simp only [MemoryStore.addMessages]
  split
  · exact List.mem_append_left _ (List.mem_filter.2 ⟨hmem, by simp [hm]⟩)
  · exact hmem

/-- A stored system message survives any clear-free operation sequence. -/
theorem mem_runOps_of_sys (m : Msg α) (hm : m.getType = "system")
    (ops : List (HistOp α)) (hclear : HistOp.clearOp ∉ ops) :
    ∀ s : MemoryStore α, m ∈ s.messages → m ∈ (runOps s ops).messages := by
  induction ops with
  | nil => exact fun s h => h
  | cons op rest ih =>
    intro s h
    simp only [List.mem_cons, not_or] at hclear
    cases op with
    | append b =>
      exact ih hclear.2 _ (mem_addMessages_of_sys m hm s b (List.mem_append_left _ h))
    | clearOp => exact absurd rfl (Ne.symm hclear.1)

end Lemmas

/-- C1 counterexample: with `M = 0`, appending one user turn leaves one
retained non-instruction turn (JS `slice(-0)` keeps the whole array), so
`size() - (1 if instruction present else 0) <= M` fails. -/
theorem history_cap_counterexample :
    ¬ (claimNonInstr (MemoryStore.addMessages (⟨[], 0⟩ : MemoryStore Unit)
          [Msg.human "u1"]) ≤
        (MemoryStore.addMessages (⟨[], 0⟩ : MemoryStore Unit)
          [Msg.human "u1"]).maxMessages) := by
  decide

/-- C1 amended: for a cap `M >= 1`, after every append in any sequence of
appends on an initially empty store, the number of retained
non-instruction turns is at most `M` (for `M <= 0` the invariant fails,
and with several instruction turns the `size() - 1` shorthand overcounts;
the direct non-instruction count is bounded). -/
theorem history_cap_amended (M : Int) (hM : 1 ≤ M)
    (batches : List (List (Msg α))) :
    (nonInstructionCount (batches.foldl MemoryStore.addMessages ⟨[], M⟩) : Int) ≤ M := by
  rcases List.eq_nil_or_concat batches with rfl | ⟨bs, b, rfl⟩
  · simp only [List.foldl_nil, nonInstructionCount, List.filter_nil,
      List.length_nil, Nat.cast_zero]
    omega
  · rw [List.concat_eq_append, List.foldl_concat]
    have hmax := maxMessages_foldl bs (⟨[], M⟩ : MemoryStore α)
    have h := nonInstructionCount_addMessages_le
      (bs.foldl MemoryStore.addMessages ⟨[], M⟩) b (by rw [hmax]; exact hM)
    rwa [hmax] at h

/-- C1 amended, witness: cap `M = 1`, two appends. -/
theorem history_cap_amended_witness :
    (nonInstructionCount ([[Msg.human (α := Unit) "a"],
        [Msg.human "b"]].foldl MemoryStore.addMessages ⟨[], 1⟩) : Int) ≤ 1 :=
  history_cap_amended 1 (by decide) [[Msg.human "a"], [Msg.human "b"]]

/-- C2: a standing-instruction turn, once appended, is present in every
subsequent snapshot across any clear-free sequence of further store
operations. -/
theorem instruction_retention (m : Msg α) (hm : m.getType = "system")
    (s : MemoryStore α) (b : List (Msg α)) (hmem : m ∈ b)
    (ops : List (HistOp α)) (hclear : HistOp.clearOp ∉ ops) :
    m ∈ MemoryStore.getMessages (runOps (s.addMessages b) ops) :=
  mem_runOps_of_sys m hm ops hclear _
    (mem_addMessages_of_sys m hm s b (List.mem_append_right _ hmem))

/-- C2 witness: the spec's scenario with `M = 3`, an instruction turn and
four later appends. -/
theorem instruction_retention_witness :
    Msg.system (α := Unit) "i" ∈ MemoryStore.getMessages (runOps
      (MemoryStore.addMessages ⟨[], 3⟩ [Msg.system "i"])
      [HistOp.append [Msg.human "1"], HistOp.append [Msg.human "2"],
       HistOp.append [Msg.human "3"], HistOp.append [Msg.human "4"]]) :=
  instruction_retention (Msg.system "i") rfl ⟨[], 3⟩ [Msg.system "i"]
    (by decide) _ (by decide)

/-- C7 counterexample: with `M = 0`, appending an instruction and a user
turn retains the user turn too (`slice(-0)` keeps everything), not only
the instruction. -/
theorem cap_nonpositive_counterexample :
    (MemoryStore.addMessages (⟨[], 0⟩ : MemoryStore Unit)
        [Msg.system "sys", Msg.human "u1"]).messages =
      [Msg.system "sys", Msg.human "u1"] ∧
    nonInstructionCount (MemoryStore.addMessages (⟨[], 0⟩ : MemoryStore Unit)
        [Msg.system "sys", Msg.human "u1"]) ≠ 0 := by
  decide

/-- C7 amended: with `M <= 0`, an append that leaves the store nonempty
does run the rebalancing pass, but instead of evicting all
non-instruction turns it retains every instruction turn followed by the
non-instruction turns with only the first `|M|` dropped — with `M = 0`,
every non-instruction turn is retained. -/
theorem cap_nonpositive_amended (s : MemoryStore α) (batch : List (Msg α))
    (hM : s.maxMessages ≤ 0) (hne : s.messages ++ batch ≠ []) :
    (s.addMessages batch).messages =
      (s.messages ++ batch).filter (fun m => m.getType == "system") ++
        ((s.messages ++ batch).filter (fun m => m.getType != "system")).drop
          s.maxMessages.natAbs := by
  have hlen : 0 < (s.messages ++ batch).length := List.length_pos.2 hne
  have hcond : s.maxMessages < ((s.messages ++ batch).length : Int) := by omega
  simp only [MemoryStore.addMessages, if_pos hcond]
  congr 1
  unfold jsSlice
  rw [if_pos (by omega : (0 : Int) ≤ -s.maxMessages)]
  congr 1
  omega

/-- C7 amended, witness at `M = 0`. -/
theorem cap_nonpositive_amended_witness :
    (MemoryStore.addMessages (⟨[], 0⟩ : MemoryStore Unit)
        [Msg.system "s", Msg.human "u"]).messages =
      ([Msg.system (α := Unit) "s", Msg.human "u"].filter
          (fun m => m.getType == "system")) ++
        (([Msg.system (α := Unit) "s", Msg.human "u"].filter
            (fun m => m.getType != "system")).drop (0 : Int).natAbs) :=
  cap_nonpositive_amended ⟨[], 0⟩ [Msg.system "s", Msg.human "u"]
    (by decide) (by decide)

/-- C8 counterexample: an append that does not trigger the eviction pass
keeps pure chronological order, so a snapshot need not list instruction
turns first — appending `[user, instruction]` under a large cap yields a
snapshot with the user turn before the instruction turn. -/
theorem snapshot_counterexample :
    MemoryStore.getMessages (MemoryStore.addMessages
        (⟨[], 50⟩ : MemoryStore Unit) [Msg.human "u1", Msg.system "s"]) =
      [Msg.human "u1", Msg.system "s"] ∧
    MemoryStore.getMessages (MemoryStore.addMessages
        (⟨[], 50⟩ : MemoryStore Unit) [Msg.human "u1", Msg.system "s"]) ≠
      specInstructionFirst (MemoryStore.getMessages (MemoryStore.addMessages
        (⟨[], 50⟩ : MemoryStore Unit) [Msg.human "u1", Msg.system "s"])) := by
  decide

/-- C8 amended: `snapshot()` returns the full stored ordered sequence
(the source returns a fresh copy, so later mutation cannot change it).
Immediately after an append that triggered the eviction pass the snapshot
is in instruction-first form — all instruction turns first, then the
retained non-instruction turns, each group in original relative order —
but after a non-evicting append the snapshot is exactly the old sequence
followed by the appended turns, so instruction turns need not be first. -/
theorem snapshot_amended (s : MemoryStore α) :
    MemoryStore.getMessages s = s.messages ∧
    (∀ batch, s.maxMessages < ((s.messages ++ batch).length : Int) →
      MemoryStore.getMessages (s.addMessages batch) =
        specInstructionFirst (MemoryStore.getMessages (s.addMessages batch))) ∧
    (∀ batch, ¬ s.maxMessages < ((s.messages ++ batch).length : Int) →
      MemoryStore.getMessages (s.addMessages batch) = s.messages ++ batch) := by
  refine ⟨rfl, ?_, ?_⟩
  · intro batch h
    have hu : ∀ m ∈ (s.messages ++ batch).filter (fun m => m.getType == "system"),
        (m.getType == "system") = true :=
      fun m hm => (List.mem_filter.1 hm).2
    have hv : ∀ m ∈ jsSlice ((s.messages ++ batch).filter
          (fun m => m.getType != "system")) (-s.maxMessages),
        (m.getType == "system") = false := by
      intro m hm
      have hb := (List.mem_filter.1 (jsSlice_subset _ _ hm)).2
      simpa only [bne, Bool.not_eq_true'] using hb
    simp only [MemoryStore.getMessages, MemoryStore.addMessages, if_pos h]
    exact (specInstructionFirst_of_split _ _ hu hv).symm
  · intro batch h
    simp only [MemoryStore.getMessages, MemoryStore.addMessages, if_neg h]

/-- C8 amended, witness: an evicting and a non-evicting append. -/
theorem snapshot_amended_witness :
    MemoryStore.getMessages (⟨[Msg.human "x"], 2⟩ : MemoryStore Unit) =
      [Msg.human "x"] ∧
    MemoryStore.getMessages (MemoryStore.addMessages
        (⟨[Msg.human "x"], 2⟩ : MemoryStore Unit)
        [Msg.system "i", Msg.human "y"]) =
      specInstructionFirst (MemoryStore.getMessages (MemoryStore.addMessages
        (⟨[Msg.human "x"], 2⟩ : MemoryStore Unit)
        [Msg.system "i", Msg.human "y"])) ∧
    MemoryStore.getMessages (MemoryStore.addMessages
        (⟨[Msg.human "x"], 2⟩ : MemoryStore Unit) [Msg.human "y"]) =
      [Msg.human "x"] ++ [Msg.human "y"] :=
  ⟨(snapshot_amended _).1,
   (snapshot_amended _).2.1 [Msg.system "i", Msg.human "y"] (by decide),
   (snapshot_amended _).2.2 [Msg.human "y"] (by decide)⟩

/-- C9 counterexample: `tail(0)` on a store holding one turn returns that
turn (JS `slice(-0)` is `slice(0)`), not the empty list of "the last 0
turns". -/
theorem tail_counterexample :
    MemoryStore.getRecentMessages
        (⟨[Msg.human "u1"], 50⟩ : MemoryStore Unit) 0 = [Msg.human "u1"] ∧
    MemoryStore.getRecentMessages
        (⟨[Msg.human "u1"], 50⟩ : MemoryStore Unit) 0 ≠ ([] : List (Msg Unit)) := by
  decide

/-- C9 amended: for every `n >= 1`, `tail(n)` returns the last `n` stored
turns (all of them when `n` exceeds the size), with no special instruction
handling; `tail(0)`, however, returns the whole stored sequence. -/
theorem tail_amended (s : MemoryStore α) (n : Int) :
    (1 ≤ n →
      MemoryStore.getRecentMessages s n =
        s.messages.drop (s.messages.length - n.toNat)) ∧
    ((s.messages.length : Int) < n →
      MemoryStore.getRecentMessages s n = s.messages) ∧
    MemoryStore.getRecentMessages s 0 = s.messages := by
  refine ⟨?_, ?_, ?_⟩
  · intro hn
    unfold MemoryStore.getRecentMessages jsSlice
    rw [if_neg (by omega : ¬ (0 : Int) ≤ -n)]
    congr 1
    omega
  · intro hn
    have hn1 : 1 ≤ n := by omega
    unfold MemoryStore.getRecentMessages jsSlice
    rw [if_neg (by omega : ¬ (0 : Int) ≤ -n)]
    have h0 : (((s.messages.length : Int)) + -n).toNat = 0 := by omega
    rw [h0, List.drop_zero]
  · simp [MemoryStore.getRecentMessages, jsSlice]

/-- C9 amended, witness on a three-turn store. -/
theorem tail_amended_witness :
    MemoryStore.getRecentMessages
        (⟨[Msg.human "a", Msg.human "b", Msg.human "c"], 50⟩ : MemoryStore Unit) 2 =
      [Msg.human "b", Msg.human "c"] ∧
    MemoryStore.getRecentMessages
        (⟨[Msg.human "a", Msg.human "b", Msg.human "c"], 50⟩ : MemoryStore Unit) 5 =
      [Msg.human "a", Msg.human "b", Msg.human "c"] ∧
    MemoryStore.getRecentMessages
        (⟨[Msg.human "a", Msg.human "b", Msg.human "c"], 50⟩ : MemoryStore Unit) 0 =
      [Msg.human "a", Msg.human "b", Msg.human "c"] :=
  ⟨(tail_amended _ 2).1 (by decide), (tail_amended _ 5).2.1 (by decide),
   (tail_amended _ 0).2.2⟩

/-- C10: an append that does not trigger the eviction pass leaves the
stored sequence exactly equal to the old sequence followed by the new
turns, while an append that does trigger it (total length, instruction
turns included, exceeds `M`) rebuilds the sequence as all instruction
turns — wherever they originally appeared — followed by an
instruction-free retained tail. -/
theorem eviction_reorder (s : MemoryStore α) (batch : List (Msg α)) :
    (¬ s.maxMessages < ((s.messages ++ batch).length : Int) →
      (s.addMessages batch).messages = s.messages ++ batch) ∧
    (s.maxMessages < ((s.messages ++ batch).length : Int) →
      (s.addMessages batch).messages =
        (s.messages ++ batch).filter (fun m => m.getType == "system") ++
          jsSlice ((s.messages ++ batch).filter (fun m => m.getType != "system"))
            (-s.maxMessages) ∧
      (jsSlice ((s.messages ++ batch).filter (fun m => m.getType != "system"))
          (-s.maxMessages)).filter (fun m => m.getType == "system") = []) := by
  constructor
  · intro h
    simp only [MemoryStore.addMessages, if_neg h]
  · intro h
    exact ⟨by simp only [MemoryStore.addMessages, if_pos h],
      filter_sys_of_jsSlice_other _ _⟩

/-- C10 witness: a non-evicting append and an evicting append with a
mid-sequence instruction turn. -/
theorem eviction_reorder_witness :
    (MemoryStore.addMessages (⟨[], 50⟩ : MemoryStore Unit)
        [Msg.human "a"]).messages = [Msg.human "a"] ∧
    ((MemoryStore.addMessages (⟨[], 1⟩ : MemoryStore Unit)
        [Msg.human "a", Msg.system "i", Msg.human "b"]).messages =
      ([Msg.human (α := Unit) "a", Msg.system "i", Msg.human "b"].filter
          (fun m => m.getType == "system")) ++
        jsSlice ([Msg.human (α := Unit) "a", Msg.system "i", Msg.human "b"].filter
          (fun m => m.getType != "system")) (-(1 : Int)) ∧
      (jsSlice ([Msg.human (α := Unit) "a", Msg.system "i", Msg.human "b"].filter
          (fun m => m.getType != "system")) (-(1 : Int))).filter
        (fun m => m.getType == "system") = []) :=
  ⟨(eviction_reorder ⟨[], 50⟩ [Msg.human "a"]).1 (by decide),
   (eviction_reorder ⟨[], 1⟩
      [Msg.human "a", Msg.system "i", Msg.human "b"]).2 (by decide)⟩

/-- C5: when the oracle's response carries no action requests, the cycle
ends at the agent node — the dispatcher node is never entered (the trace
is exactly `["agent"]`) — and the final answer is the response's content
verbatim. -/
theorem empty_requests_end_cycle (oracle : List (Msg α) → Msg α)
    (tools : List (Tool α)) (sys : Msg α) (msgs : List (Msg α)) (fuel : Nat)
    (h : (oracle (sys :: msgs)).toolCalls = []) :
    runGraph oracle tools sys (fuel + 1) msgs =
      some (msgs ++ [oracle (sys :: msgs)], ["agent"]) ∧
    finalAnswer (msgs ++ [oracle (sys :: msgs)]) = (oracle (sys :: msgs)).content := by
  have hsc : shouldContinue (msgs ++ agentNode oracle sys msgs) = "__end__" := by
    unfold shouldContinue agentNode
    rw [List.getLast?_concat]
    simp [h]
  constructor
  · unfold runGraph
    rw [if_neg (by rw [hsc]; decide)]
    rfl
  · unfold finalAnswer
    rw [List.getLast?_concat]
    rfl

/-- C5 witness: a concrete oracle that immediately answers. -/
theorem empty_requests_end_cycle_witness :
    runGraph (fun _ => Msg.ai (α := Unit) "done" []) [] (Msg.system "s") 1 [] =
      some ([Msg.ai "done" []], ["agent"]) ∧
    finalAnswer [Msg.ai (α := Unit) "done" []] = "done" :=
  empty_requests_end_cycle (fun _ => Msg.ai "done" []) [] (Msg.system "s") [] 0 rfl

/-- C3: every dispatch batch produces exactly one result per request, and
the results reference the requests' correlation ids in request order. -/
theorem dispatch_order (tools : List (Tool α)) (msgs : List (Msg α))
    (content : String) (calls : List (ToolCall α)) :
    (toolsNode tools (msgs ++ [Msg.ai content calls])).length = calls.length ∧
    (toolsNode tools (msgs ++ [Msg.ai content calls])).map Msg.toolCallId =
      calls.map ToolCall.id := by
  rw [toolsNode_concat_ai]
  refine ⟨by simp [dispatch], ?_⟩
  unfold dispatch
  rw [List.map_map]
  exact List.map_congr_left fun c _ => execCall_toolCallId tools c

/-- C4: dispatch is total and failures are isolated — the batch result
decomposes pointwise, so one request's outcome (including a raised
failure) never changes the results of its siblings, and each request's
outcome is exactly one tool-result message tagged with its id and name. -/
theorem dispatch_isolation_total (tools : List (Tool α)) (msgs : List (Msg α))
    (content : String) (pre : List (ToolCall α)) (c : ToolCall α)
    (post : List (ToolCall α)) :
    toolsNode tools (msgs ++ [Msg.ai content (pre ++ c :: post)]) =
      dispatch tools pre ++ execCall tools c :: dispatch tools post ∧
    ∃ out, execCall tools c = Msg.toolMsg c.name out c.id := by
  rw [toolsNode_concat_ai]
  exact ⟨by simp [dispatch], execCall_shape tools c⟩

/-- C6 counterexample: the unknown-name result for request
`{name:"unknown_tool", id:"x1"}` is a single error result tagged `x1`,
but its content does not contain the substring `unknown action` (the code
writes `unknown tool`). -/
theorem unknown_action_counterexample :
    dispatch ([] : List (Tool Unit)) [⟨"unknown_tool", (), "x1"⟩] =
      [Msg.toolMsg "unknown_tool" "ERROR: unknown tool \"unknown_tool\"" "x1"] ∧
    strContains "ERROR: unknown tool \"unknown_tool\"" "unknown action" = false := by
  exact ⟨rfl, by decide⟩

/-- C6 amended: a request whose name matches no catalog entry invokes
nothing and yields exactly one error result tagged with the request's id,
whose content contains `unknown tool`. -/
theorem unknown_action_amended (tools : List (Tool α)) (call : ToolCall α)
    (h : tools.find? (fun x => x.name == call.name) = none) :
    dispatch tools [call] =
      [Msg.toolMsg call.name ("ERROR: unknown tool \"" ++ call.name ++ "\"") call.id] ∧
    strContains ("ERROR: unknown tool \"" ++ call.name ++ "\"") "unknown tool" = true := by
  constructor
  · have hone : execCall tools call =
        Msg.toolMsg call.name ("ERROR: unknown tool \"" ++ call.name ++ "\"") call.id := by
      unfold execCall
      rw [h]
    simp [dispatch, hone]
  · unfold strContains
    rw [String.append_assoc, String.data_append]
    exact containsSub_append _ _ _ (by decide)

/-- C6 amended, witness at the spec's concrete scenario. -/
theorem unknown_action_amended_witness :
    dispatch ([] : List (Tool Unit)) [⟨"unknown_tool", (), "x1"⟩] =
      [Msg.toolMsg "unknown_tool" "ERROR: unknown tool \"unknown_tool\"" "x1"] ∧
    strContains "ERROR: unknown tool \"unknown_tool\"" "unknown tool" = true :=
  unknown_action_amended [] ⟨"unknown_tool", (), "x1"⟩ rfl

end LoLa
